import Mathlib

/-!
Shallow embedding of the version-discovery and selection pipeline of
`setup_go.py` (kunchev/go-linux-installer).

The script scrapes anchor hrefs from the Go download page and then:
  * `get_go_versions` filters hrefs to those containing `linux-amd64` and
    normalizes each via Python `lstrip('/dl/go')` / `rstrip('.linux-amd64.tar.gz')`
    (character-class strips, not literal prefix/suffix removal);
  * `get_go_links` builds `url + href.lstrip('/dl/')` for each filtered href;
  * `get_go_link` scans all hrefs and keeps overwriting a result variable
    (initialized to the empty list `[]`, the not-found sentinel) with
    `url + href.lstrip('/dl/')` for every href containing both `linux-amd64`
    and the requested version;
  * `main` dispatches on `--action`; the listing actions print elements from
    index 1 on and exit 0; `installgo` checks the download folder, requires
    `--version`, resolves, and calls `get_go`, which downloads, aborts with a
    fatal message when `/usr/local/go` exists, and otherwise extracts.

The HTML scraping and all I/O are modelled by passing the extracted href list
(and the relevant filesystem facts) as explicit arguments; everything else
follows the Python source line by line.
-/

namespace SetupGo

/-- Python's `sub in s` substring containment test, on character lists. -/
def substr (pat : List Char) : List Char → Bool
  | [] => pat.isEmpty
  | c :: t => pat.isPrefixOf (c :: t) || substr pat t

/-- Python's `s.lstrip(chars)`: drop leading characters belonging to the
character set `chars` (NOT literal prefix removal). -/
def lstripSet (chars : List Char) : List Char → List Char
  | [] => []
  | c :: t => if chars.contains c then lstripSet chars t else c :: t

/-- Python's `s.rstrip(chars)`: drop trailing characters belonging to the
character set `chars` (NOT literal suffix removal). -/
def rstripSet (chars : List Char) (s : List Char) : List Char :=
  (lstripSet chars s.reverse).reverse

/-- Module constant `go_dl_base_url` of `setup_go.py`. -/
def go_dl_base_url : String := "https://golang.org/dl/"

/-- Module constant `go_local` of `setup_go.py`. -/
def go_local : String := "/tmp/"

/-- The fixed platform filter substring used in all three scraping loops. -/
def platform_substring : String := "linux-amd64"

/-- The filter `'linux-amd64' in link['href']` applied to every anchor href. -/
def hasPlatform (href : String) : Bool :=
  substr platform_substring.data href.data

/-- The per-href normalization in `get_go_versions`:
`link['href'].lstrip('/dl/go').rstrip('.linux-amd64.tar.gz')`. -/
def normalizeHref (href : String) : String :=
  String.mk (rstripSet ".linux-amd64.tar.gz".data (lstripSet "/dl/go".data href.data))

/-- `get_go_versions` over the extracted anchor hrefs: keep the hrefs containing
`linux-amd64` and normalize each. -/
def get_go_versions (hrefs : List String) : List String :=
  (hrefs.filter hasPlatform).map normalizeHref

/-- The per-href link construction `url + link['href'].lstrip('/dl/')`
shared by `get_go_links` and `get_go_link`. -/
def stripLink (href : String) : String :=
  String.mk (lstripSet "/dl/".data href.data)

/-- `get_go_links` over the extracted anchor hrefs. -/
def get_go_links (hrefs : List String) : List String :=
  (hrefs.filter hasPlatform).map (fun h => go_dl_base_url ++ stripLink h)

/-- Result of `get_go_link`: the Python function returns either the empty list
`[]` (its initial value, the not-found sentinel) or the last URL assigned. -/
inductive ResolveResult where
  | notFound : ResolveResult
  | found : String → ResolveResult
deriving DecidableEq, Repr

/-- The match test of `get_go_link`:
`'linux-amd64' in link['href'] and version in link['href']`. -/
def matchesVersion (version href : String) : Bool :=
  hasPlatform href && substr version.data href.data

/-- One iteration of the `get_go_link` loop: overwrite the accumulator on a
match, keep it otherwise. -/
def resolveStep (version : String) (acc : ResolveResult) (href : String) : ResolveResult :=
  if matchesVersion version href then
    ResolveResult.found (go_dl_base_url ++ stripLink href)
  else acc

/-- `get_go_link` over the extracted anchor hrefs: a left fold of the
overwrite-in-loop body starting from the not-found sentinel. -/
def get_go_link (hrefs : List String) (version : String) : ResolveResult :=
  hrefs.foldl (resolveStep version) ResolveResult.notFound

/-- The index sequence `range(1, len(versions))` of the listing loops. -/
def displayIndices (versions : List String) : List Nat :=
  List.range' 1 (versions.length - 1)

/-- The version strings printed by the `listgoversions` loop
(`for version in range(1, len(go_versions)): print(go_versions[version])`). -/
def printedVersions (versions : List String) : List String :=
  (displayIndices versions).map (fun i => versions.getD i "")

/-- Observable outcome of a listing action. -/
structure ListFlow where
  printedLines : List String
  exitCode : Nat
deriving DecidableEq, Repr

/-- The `listgoversions` branch of `main`: print from index 1 on, `exit(0)`. -/
def listgoversionsFlow (hrefs : List String) : ListFlow :=
  { printedLines := printedVersions (get_go_versions hrefs), exitCode := 0 }

/-- Observable outcome of the `installgo` branch of `main`, up to the call of
`get_go`. `exitCode = some c` means the process exited with code `c` before
any download; `getGoCalledWith = some r` means `get_go` was invoked with the
value `get_go_link` returned. -/
structure InstallFlow where
  exitCode : Option Nat
  printedVersionPrompt : Bool
  printedFolderMissing : Bool
  resolveCalled : Bool
  getGoCalledWith : Option ResolveResult
deriving DecidableEq, Repr

/-- The `installgo` branch of `main`: `check_exists_dl_folder(go_local)` first
(exit 1 when the download folder is absent), then require `--version`
(prompt and exit 1 when absent), else resolve via `get_go_link` and hand the
result — whatever it is — to `get_go`. -/
def installgoFlow (dlFolderExists : Bool) (versionArg : Option String)
    (hrefs : List String) : InstallFlow :=
  if dlFolderExists then
    match versionArg with
    | none =>
        { exitCode := some 1, printedVersionPrompt := true,
          printedFolderMissing := false, resolveCalled := false,
          getGoCalledWith := none }
    | some v =>
        { exitCode := none, printedVersionPrompt := false,
          printedFolderMissing := false, resolveCalled := true,
          getGoCalledWith := some (get_go_link hrefs v) }
  else
    { exitCode := some 1, printedVersionPrompt := false,
      printedFolderMissing := true, resolveCalled := false,
      getGoCalledWith := none }

/-- Observable outcome of `get_go`: the archive path written in step 1, the
fatal `exit('go is installed')` message if any, and whether the `tar`
extraction of step 2 ran. -/
structure GetGoFlow where
  tarPath : String
  fatalMessage : Option String
  extracted : Bool
deriving DecidableEq, Repr

/-- `get_go`: download to `location + url.split('/')[-1]`, then exit fatally
when `/usr/local/go` already exists, else extract the archive. -/
def get_go (url location : String) (goInstallDirExists : Bool) : GetGoFlow :=
  let filename := (url.splitOn "/").getLastD ""
  let tarPath := location ++ filename
  if goInstallDirExists then
    { tarPath := tarPath, fatalMessage := some "go is installed", extracted := false }
  else
    { tarPath := tarPath, fatalMessage := none, extracted := true }

/-- Modelled from the spec (section 4.3): literal prefix/suffix stripping, the
behavior the spec contrasts with the source's character-class strips — remove
the prefix from the start and the suffix from the end when literally present,
else leave that end unmodified. -/
def literalNormalize (pre suf s : String) : String :=
  let afterPre := if pre.data.isPrefixOf s.data then s.data.drop pre.data.length else s.data
  let afterSuf :=
    if suf.data.isSuffixOf afterPre then afterPre.take (afterPre.length - suf.data.length)
    else afterPre
  String.mk afterSuf

/-- Modelled from the spec (section 4.4): `href-with-leading-slash-removed`,
read literally — the href with a single leading slash character removed. -/
def removeLeadingSlash (s : String) : String :=
  match s.data with
  | '/' :: t => String.mk t
  | _ => s

/-- A fold of the `get_go_link` loop body over links none of which match
leaves the accumulator unchanged. -/
lemma foldl_resolveStep_no_match (v : String) (l : List String) :
    ∀ acc : ResolveResult, (∀ x ∈ l, matchesVersion v x = false) →
      l.foldl (resolveStep v) acc = acc := by
  induction l with
  | nil => intro acc _; rfl
  | cons h t ih =>
      intro acc hl
      have hh : matchesVersion v h = false := hl h (List.mem_cons_self h t)
      have ht : ∀ x ∈ t, matchesVersion v x = false :=
        fun x hx => hl x (List.mem_cons_of_mem h hx)
      rw [List.foldl_cons, show resolveStep v acc h = acc from by simp [resolveStep, hh]]
      exact ih acc ht

/-- The `get_go_link` loop returns the URL built from the last matching link:
whatever precedes it, a match followed only by non-matches decides the result. -/
lemma resolve_last_match (pre post : List String) (h v : String)
    (hm : matchesVersion v h = true)
    (hpost : ∀ x ∈ post, matchesVersion v x = false) :
    get_go_link (pre ++ h :: post) v
      = ResolveResult.found (go_dl_base_url ++ stripLink h) := by
  unfold get_go_link
  rw [List.foldl_append, List.foldl_cons,
    show resolveStep v (pre.foldl (resolveStep v) ResolveResult.notFound) h
      = ResolveResult.found (go_dl_base_url ++ stripLink h) from by simp [resolveStep, hm]]
  exact foldl_resolveStep_no_match v post _ hpost

/-- Mapping position lookup over `range (length t)` rebuilds the list. -/
lemma range_map_getD (t : List String) :
    (List.range t.length).map (fun i => t.getD i "") = t := by
  induction t with
  | nil => rfl
  | cons a t ih =>
      rw [List.length_cons, List.range_succ_eq_map, List.map_cons, List.map_map]
      refine congrArg₂ List.cons List.getD_cons_zero ?_
      rw [show ((fun i => (a :: t).getD i "") ∘ Nat.succ) = fun i => t.getD i "" from
        funext fun i => List.getD_cons_succ]
      exact ih

/-- The listing loop over `range(1, len l)` prints exactly `l.drop 1`. -/
lemma printedVersions_eq_drop (l : List String) : printedVersions l = l.drop 1 := by
  cases l with
  | nil => rfl
  | cons a t =>
      show (List.range' 1 ((a :: t).length - 1)).map (fun i => (a :: t).getD i "") = t
      rw [List.length_cons, Nat.add_sub_cancel, List.range'_eq_map_range, List.map_map]
      rw [show ((fun i => (a :: t).getD i "") ∘ fun x => 1 + x) = fun i => t.getD i "" from
        funext fun i => by rw [Function.comp_apply, Nat.add_comm, List.getD_cons_succ]]
      exact range_map_getD t

/-- Any `found` result of the `get_go_link` fold either comes from a matching
element of the scanned list or was already the accumulator. -/
lemma resolve_found_spec (v : String) (l : List String) :
    ∀ (acc : ResolveResult) (u : String),
      l.foldl (resolveStep v) acc = ResolveResult.found u →
      (∃ h ∈ l, matchesVersion v h = true ∧ u = go_dl_base_url ++ stripLink h) ∨
        acc = ResolveResult.found u := by
  induction l with
  | nil => intro acc u h; exact Or.inr h
  | cons x t ih =>
      intro acc u h
      rw [List.foldl_cons] at h
      rcases ih (resolveStep v acc x) u h with h1 | h2
      · obtain ⟨y, hy, hmy, huy⟩ := h1
        exact Or.inl ⟨y, List.mem_cons_of_mem x hy, hmy, huy⟩
      · by_cases hm : matchesVersion v x = true
        · simp only [resolveStep, hm, if_true, ResolveResult.found.injEq] at h2
          exact Or.inl ⟨x, List.mem_cons_self x t, hm, h2.symm⟩
        · right
          simpa only [resolveStep, hm, if_false] using h2

/-- C1: on a link list with no href containing the requested version,
`get_go_link` does return the not-found sentinel, but the `installgo` branch
of `main` does NOT report it or exit: its outcome has `exitCode = none` (no
pre-download exit, no prompt, no error print) and it invokes `get_go` with
the sentinel itself — the download step is reached despite the failed
resolution, contradicting the claimed report-and-exit behavior. -/
theorem c1_notfound_sentinel_not_reported :
    get_go_link ["/dl/go1.15.linux-amd64.tar.gz"] "9.9.9" = ResolveResult.notFound ∧
    installgoFlow true (some "9.9.9") ["/dl/go1.15.linux-amd64.tar.gz"] =
      { exitCode := none, printedVersionPrompt := false, printedFolderMissing := false,
        resolveCalled := true, getGoCalledWith := some ResolveResult.notFound } := by
  decide

/-- C2: among the hrefs containing both the platform substring and the
requested version, the last one in iteration order decides the result of
`get_go_link` (last-match-wins): a matching href followed only by
non-matching ones yields the URL built from that href, whatever precedes it. -/
theorem c2_last_match_wins (pre post : List String) (h v : String)
    (hm : matchesVersion v h = true)
    (hpost : ∀ x ∈ post, matchesVersion v x = false) :
    get_go_link (pre ++ h :: post) v
      = ResolveResult.found (go_dl_base_url ++ stripLink h) :=
  resolve_last_match pre post h v hm hpost

/-- Witness for C2, the spec's own example: requesting "1.15" against
`["go1.15.linux-amd64.tar.gz", "go1.15.2.linux-amd64.tar.gz"]` returns the
URL built from the second entry. -/
theorem c2_last_match_wins_witness :
    (matchesVersion "1.15" "go1.15.2.linux-amd64.tar.gz" = true ∧
      (∀ x ∈ ([] : List String), matchesVersion "1.15" x = false)) ∧
    get_go_link ["go1.15.linux-amd64.tar.gz", "go1.15.2.linux-amd64.tar.gz"] "1.15"
      = ResolveResult.found (go_dl_base_url ++ stripLink "go1.15.2.linux-amd64.tar.gz") ∧
    go_dl_base_url ++ stripLink "go1.15.2.linux-amd64.tar.gz"
      = "https://golang.org/dl/go1.15.2.linux-amd64.tar.gz" :=
  ⟨⟨by decide, by decide⟩,
    c2_last_match_wins ["go1.15.linux-amd64.tar.gz"] []
      "go1.15.2.linux-amd64.tar.gz" "1.15" (by decide) (by decide),
    by decide⟩

/-- C3: the character-class suffix trim of `get_go_versions` over-trims: for
the platform-matching href "go1.14.linux-amd64.tar.gz", the source's
normalization yields "1.1" — losing the trailing "4" of the version, because
the digit 4 belongs to the character set of ".linux-amd64.tar.gz" — while
literal prefix/suffix stripping yields "1.14"; the two results differ. -/
theorem c3_charclass_suffix_overtrim :
    hasPlatform "go1.14.linux-amd64.tar.gz" = true ∧
    normalizeHref "go1.14.linux-amd64.tar.gz" = "1.1" ∧
    literalNormalize "go" ".linux-amd64.tar.gz" "go1.14.linux-amd64.tar.gz" = "1.14" ∧
    normalizeHref "go1.14.linux-amd64.tar.gz"
      ≠ literalNormalize "go" ".linux-amd64.tar.gz" "go1.14.linux-amd64.tar.gz" := by
  decide

/-- C4: for the href "go1.15.2.linux-amd64.tar.gz", the normalization exactly
as applied by `get_go_versions` produces precisely "1.15.2". -/
theorem c4_normalize_example :
    get_go_versions ["go1.15.2.linux-amd64.tar.gz"] = ["1.15.2"] ∧
    normalizeHref "go1.15.2.linux-amd64.tar.gz" = "1.15.2" := by
  decide

/-- C5: the listing presentation drops exactly index 0 and prints the rest in
order (`printedVersions l = l.drop 1` for every list), while `get_go_link`
searches the full unskipped sequence: a match at index 0 (with no later
match) is still returned, so the skip affects display only, never resolution. -/
theorem c5_skip_presentation_only (l : List String) (x v : String) (rest : List String)
    (hx : matchesVersion v x = true)
    (hrest : ∀ y ∈ rest, matchesVersion v y = false) :
    printedVersions l = l.drop 1 ∧
    get_go_link (x :: rest) v = ResolveResult.found (go_dl_base_url ++ stripLink x) :=
  ⟨printedVersions_eq_drop l, resolve_last_match [] rest x v hx hrest⟩

/-- Witness for C5, on the spec's example list: `["dup", "1.14", "1.15"]`
displays as `["1.14", "1.15"]`, and a version matched only by the very first
link is still resolved. -/
theorem c5_skip_presentation_only_witness :
    (matchesVersion "1.15" "go1.15.linux-amd64.tar.gz" = true ∧
      (∀ y ∈ ([] : List String), matchesVersion "1.15" y = false)) ∧
    (printedVersions ["dup", "1.14", "1.15"] = ["dup", "1.14", "1.15"].drop 1 ∧
      get_go_link ["go1.15.linux-amd64.tar.gz"] "1.15"
        = ResolveResult.found (go_dl_base_url ++ stripLink "go1.15.linux-amd64.tar.gz")) ∧
    printedVersions ["dup", "1.14", "1.15"] = ["1.14", "1.15"] :=
  ⟨⟨by decide, by decide⟩,
    c5_skip_presentation_only ["dup", "1.14", "1.15"]
      "go1.15.linux-amd64.tar.gz" "1.15" [] (by decide) (by decide),
    by decide⟩

/-- C6 counterexample: for the observed-form href
"/dl/go1.15.2.linux-amd64.tar.gz", the candidate built by `get_go_link` is
NOT `base_url + href-with-leading-slash-removed`: Python's
`lstrip('/dl/')` removes the whole leading "/dl/" run character-wise, so the
code produces ".../dl/go1.15.2..." where the claim predicts
".../dl/dl/go1.15.2...". -/
theorem c6_counterexample :
    get_go_link ["/dl/go1.15.2.linux-amd64.tar.gz"] "1.15.2"
      = ResolveResult.found "https://golang.org/dl/go1.15.2.linux-amd64.tar.gz" ∧
    go_dl_base_url ++ removeLeadingSlash "/dl/go1.15.2.linux-amd64.tar.gz"
      = "https://golang.org/dl/dl/go1.15.2.linux-amd64.tar.gz" ∧
    get_go_link ["/dl/go1.15.2.linux-amd64.tar.gz"] "1.15.2"
      ≠ ResolveResult.found
          (go_dl_base_url ++ removeLeadingSlash "/dl/go1.15.2.linux-amd64.tar.gz") := by
  decide

/-- C6 (amended): for every matching href, the candidate `get_go_link` builds
equals the base URL concatenated with the href stripped of its leading
characters drawn from the set of '/', 'd', 'l' (Python `lstrip('/dl/')`
character-class semantics) — not merely of a single leading slash. -/
theorem c6_candidate_is_charclass_lstrip (links : List String) (h v : String)
    (hm : matchesVersion v h = true) :
    get_go_link (links ++ [h]) v = ResolveResult.found (go_dl_base_url ++ stripLink h) :=
  resolve_last_match links [] h v hm (fun y hy => absurd hy (List.not_mem_nil y))

/-- Witness for the amended C6 at the observed href. -/
theorem c6_candidate_is_charclass_lstrip_witness :
    matchesVersion "1.15.2" "/dl/go1.15.2.linux-amd64.tar.gz" = true ∧
    get_go_link ([] ++ ["/dl/go1.15.2.linux-amd64.tar.gz"]) "1.15.2"
      = ResolveResult.found (go_dl_base_url ++ stripLink "/dl/go1.15.2.linux-amd64.tar.gz") ∧
    stripLink "/dl/go1.15.2.linux-amd64.tar.gz" = "go1.15.2.linux-amd64.tar.gz" :=
  ⟨by decide,
    c6_candidate_is_charclass_lstrip [] "/dl/go1.15.2.linux-amd64.tar.gz" "1.15.2" (by decide),
    by decide⟩

/-- C7: with the download folder present and `--version` absent, the
`installgo` branch prints the version prompt and exits with code 1, without
calling `get_go_link` and without invoking `get_go`. -/
theorem c7_missing_version_precondition (dl : Bool) (hrefs : List String)
    (hdl : dl = true) :
    (installgoFlow dl none hrefs).exitCode = some 1 ∧
    (installgoFlow dl none hrefs).printedVersionPrompt = true ∧
    (installgoFlow dl none hrefs).resolveCalled = false ∧
    (installgoFlow dl none hrefs).getGoCalledWith = none := by
  subst hdl
  exact ⟨rfl, rfl, rfl, rfl⟩

/-- Witness for C7 on the concrete empty environment. -/
theorem c7_missing_version_precondition_witness :
    (true = true) ∧
    ((installgoFlow true none []).exitCode = some 1 ∧
      (installgoFlow true none []).printedVersionPrompt = true ∧
      (installgoFlow true none []).resolveCalled = false ∧
      (installgoFlow true none []).getGoCalledWith = none) :=
  ⟨rfl, c7_missing_version_precondition true [] rfl⟩

/-- C8: when `/usr/local/go` already exists, `get_go` terminates via the fatal
message 'go is installed' and the extraction step never runs, for every URL
and download location. -/
theorem c8_already_installed_not_overwritten (url location : String) :
    (get_go url location true).fatalMessage = some "go is installed" ∧
    (get_go url location true).extracted = false :=
  ⟨rfl, rfl⟩

/-- C9: every element produced by `get_go_links` starts with the base download
URL, and any `found` result of `get_go_link` starts with the base URL and is
derived from an input href containing both the platform substring and the
requested version. -/
theorem c9_results_prefixed_by_base_url (hrefs : List String) (v u : String)
    (hu : get_go_link hrefs v = ResolveResult.found u) :
    (∀ hs : List String, ∀ l ∈ get_go_links hs, go_dl_base_url.data <+: l.data) ∧
    go_dl_base_url.data <+: u.data ∧
    ∃ h, h ∈ hrefs ∧ hasPlatform h = true ∧ substr v.data h.data = true ∧
      u = go_dl_base_url ++ stripLink h := by
  have hlinks : ∀ hs : List String, ∀ l ∈ get_go_links hs, go_dl_base_url.data <+: l.data := by
    intro hs l hl
    obtain ⟨h, _, rfl⟩ := List.mem_map.mp hl
    show go_dl_base_url.data <+: go_dl_base_url.data ++ (stripLink h).data
    exact List.prefix_append _ _
  rcases resolve_found_spec v hrefs ResolveResult.notFound u hu with h1 | h2
  · obtain ⟨h, hmem, hm, hu'⟩ := h1
    simp only [matchesVersion, Bool.and_eq_true] at hm
    refine ⟨hlinks, ?_, h, hmem, hm.1, hm.2, hu'⟩
    rw [hu']
    show go_dl_base_url.data <+: go_dl_base_url.data ++ (stripLink h).data
    exact List.prefix_append _ _
  · exact ResolveResult.noConfusion h2

/-- Witness for C9 at a concrete resolved download. -/
theorem c9_results_prefixed_by_base_url_witness :
    get_go_link ["/dl/go1.15.2.linux-amd64.tar.gz"] "1.15.2"
      = ResolveResult.found "https://golang.org/dl/go1.15.2.linux-amd64.tar.gz" ∧
    ((∀ hs : List String, ∀ l ∈ get_go_links hs, go_dl_base_url.data <+: l.data) ∧
      go_dl_base_url.data <+: "https://golang.org/dl/go1.15.2.linux-amd64.tar.gz".data ∧
      ∃ h, h ∈ ["/dl/go1.15.2.linux-amd64.tar.gz"] ∧ hasPlatform h = true ∧
        substr "1.15.2".data h.data = true ∧
        "https://golang.org/dl/go1.15.2.linux-amd64.tar.gz"
          = go_dl_base_url ++ stripLink h) :=
  ⟨by decide,
    c9_results_prefixed_by_base_url ["/dl/go1.15.2.linux-amd64.tar.gz"] "1.15.2"
      "https://golang.org/dl/go1.15.2.linux-amd64.tar.gz" (by decide)⟩

/-- C10: the `listgoversions` display loop uses exactly the indices
`range(1, len)`, each strictly below the list length (no out-of-bounds read);
with at most one extracted version it prints no version lines; and the
listing branch exits with code 0 on every input. -/
theorem c10_display_loop_in_bounds (hrefs : List String)
    (hlen : (get_go_versions hrefs).length ≤ 1) :
    (∀ hs : List String, ∀ i ∈ displayIndices (get_go_versions hs),
        i < (get_go_versions hs).length) ∧
    (listgoversionsFlow hrefs).printedLines = [] ∧
    (∀ hs : List String, (listgoversionsFlow hs).exitCode = 0) := by
  refine ⟨?_, ?_, fun _ => rfl⟩
  · intro hs i hi
    simp only [displayIndices, List.mem_range'] at hi
    obtain ⟨j, hj, rfl⟩ := hi
    omega
  · show printedVersions (get_go_versions hrefs) = []
    rw [printedVersions_eq_drop]
    exact List.drop_eq_nil_of_le hlen

/-- Witness for C10 on a single extracted link (one scraped version). -/
theorem c10_display_loop_in_bounds_witness :
    (get_go_versions ["/dl/go1.15.linux-amd64.tar.gz"]).length ≤ 1 ∧
    ((∀ hs : List String, ∀ i ∈ displayIndices (get_go_versions hs),
        i < (get_go_versions hs).length) ∧
      (listgoversionsFlow ["/dl/go1.15.linux-amd64.tar.gz"]).printedLines = [] ∧
      (∀ hs : List String, (listgoversionsFlow hs).exitCode = 0)) :=
  ⟨by decide, c10_display_loop_in_bounds ["/dl/go1.15.linux-amd64.tar.gz"] (by decide)⟩

end SetupGo
